import Mathlib

/-!
Shallow embedding of the 2D diffusion example
(`src/solutions/cuda/diffusion/diffusion2d.cu`) and proofs about it.

Modelling conventions.

* A device buffer of doubles is a `Grid := Nat → ℚ`: an assignment of an exact
  rational value to every linear index.  All floating-point arithmetic of the
  source is modelled exactly over `ℚ`.
* A kernel is modelled in two layers: a per-thread function returning the
  (position, value) write the thread performs, guarded exactly as in the
  source, and a launch function giving the contents of the destination buffer
  after the whole kernel grid has run.  Each in-guard thread of the stencil
  kernels writes a distinct position, so the launch function is well defined.
* The shared-memory kernel stages values into a per-block buffer before a
  block-wide barrier and reads them back after it.  The staging phase is
  modelled by the list of (shared index, value) writes the block performs;
  a compute-phase read of a shared cell nobody staged returns the unspecified
  pre-existing contents of the shared buffer, modelled by an arbitrary
  function `sm` supplied as a parameter.
* Time stepping follows `main`: launch the selected kernel, then swap the two
  buffer roles; `run_naive`/`run_shared` iterate that body.
-/

namespace Diffusion2D

/-- Contents of a device buffer of doubles, indexed linearly. -/
abbrev Grid := Nat → ℚ

/-- Padded row width of the grid: `auto width = nx+2` in both kernels. -/
def width (nx : Nat) : Nat := nx + 2

/-- Linear index of interior coordinate `(i, j)` in the padded layout:
`auto pos = (i+1) + (j+1)*width`. -/
def pos (nx i j : Nat) : Nat := (i + 1) + (j + 1) * width nx

/-- One thread of the naive `diffusion` kernel (source lines 21-35), at thread
coordinates `(i, j)`: inside the guard `i<nx && j<ny` it writes
`x1[pos] = x0[pos] + dt*(-4*x0[pos] + x0[pos-width] + x0[pos+width] +
x0[pos-1] + x0[pos+1])`, returned as `some (pos, value)`; outside the guard it
does no work (`none`). -/
def diffusion (x0 : Grid) (nx ny : Nat) (dt : ℚ) (i j : Nat) :
    Option (Nat × ℚ) :=
  if i < nx ∧ j < ny then
    some (pos nx i j,
      x0 (pos nx i j) + dt * (-4 * x0 (pos nx i j)
        + x0 (pos nx i j - width nx) + x0 (pos nx i j + width nx)
        + x0 (pos nx i j - 1) + x0 (pos nx i j + 1)))
  else none

/-- The thread coordinates `(i, j)` whose write position is the linear index
`p`, when such an in-guard thread exists: `p = (i+1) + (j+1)*width` with
`i < nx` and `j < ny`. -/
def decodeThread (nx ny p : Nat) : Option (Nat × Nat) :=
  if 1 ≤ p % width nx ∧ p % width nx ≤ nx ∧
      1 ≤ p / width nx ∧ p / width nx ≤ ny then
    some (p % width nx - 1, p / width nx - 1)
  else none

/-- Destination buffer contents after the launch
`diffusion<<<grid_dim, block_dim>>>(x0, x1, nx, ny, dt)`: the launch grid
covers every in-guard thread, each such thread writes its own position, and
positions no in-guard thread writes keep their previous contents `x1 p`. -/
def diffusion_launch (x0 x1 : Grid) (nx ny : Nat) (dt : ℚ) : Grid :=
  fun p =>
    match decodeThread nx ny p with
    | some (i, j) =>
      match diffusion x0 nx ny dt i j with
      | some w => w.2
      | none => x1 p
    | none => x1 p

/-- Shared tile row width of `diffusion_shared`: `auto shared_width = blockDim.x+2`. -/
def sharedWidth (Bx : Nat) : Nat := Bx + 2

/-- Index in the shared tile:
`auto shared_pos = (threadIdx.x+1) + (threadIdx.y+1)*shared_width`. -/
def sharedPos (Bx tx ty : Nat) : Nat := (tx + 1) + (ty + 1) * sharedWidth Bx

/-- Staging-phase writes to the shared buffer performed by thread `(tx, ty)` of
block `(bi, bj)` in `diffusion_shared` (source lines 44-63), as a list of
(shared index, value) pairs.  The thread's global coordinates are
`i = tx + bi*Bx`, `j = ty + bj*By`; outside the guard `i<nx && j<ny` the
thread stages nothing. -/
def stageWrites (x0 : Grid) (nx ny Bx By bi bj tx ty : Nat) :
    List (Nat × ℚ) :=
  if tx + bi * Bx < nx ∧ ty + bj * By < ny then
    [(sharedPos Bx tx ty, x0 (pos nx (tx + bi * Bx) (ty + bj * By)))]
      ++ (if tx = 0 then
            [(sharedPos Bx tx ty - 1,
              x0 (pos nx (tx + bi * Bx) (ty + bj * By) - 1))] else [])
      ++ (if tx = Bx - 1 then
            [(sharedPos Bx tx ty + 1,
              x0 (pos nx (tx + bi * Bx) (ty + bj * By) + 1))] else [])
      ++ (if ty = 0 then
            [(sharedPos Bx tx ty - sharedWidth Bx,
              x0 (pos nx (tx + bi * Bx) (ty + bj * By) - width nx))] else [])
      ++ (if ty = By - 1 then
            [(sharedPos Bx tx ty + sharedWidth Bx,
              x0 (pos nx (tx + bi * Bx) (ty + bj * By) + width nx))] else [])
  else []

/-- All staging-phase writes of block `(bi, bj)`: the whole `Bx × By` block
participates before the barrier. -/
def blockWrites (x0 : Grid) (nx ny Bx By bi bj : Nat) : List (Nat × ℚ) :=
  (List.range Bx).flatMap fun tx =>
    (List.range By).flatMap fun ty =>
      stageWrites x0 nx ny Bx By bi bj tx ty

/-- Contents staged into shared cell `q` of block `(bi, bj)`'s buffer, if any
thread of the block wrote it.  (All threads that write a given cell write the
same value, so picking the first writer is canonical.) -/
def staged (x0 : Grid) (nx ny Bx By bi bj q : Nat) : Option ℚ :=
  ((blockWrites x0 nx ny Bx By bi bj).find? fun e => e.1 == q).map Prod.snd

/-- Shared-buffer contents seen after the barrier: a staged value where one
exists, otherwise the unspecified pre-existing contents `sm q`. -/
def bufferVal (x0 : Grid) (sm : Nat → ℚ) (nx ny Bx By bi bj q : Nat) : ℚ :=
  (staged x0 nx ny Bx By bi bj q).getD (sm q)

/-- Compute-phase value written by in-guard thread `(tx, ty)` of block
`(bi, bj)` of `diffusion_shared` (source lines 67-69): the same stencil as
`diffusion`, with all five operands read from the shared buffer. -/
def diffusion_shared_compute (x0 : Grid) (sm : Nat → ℚ)
    (nx ny Bx By bi bj tx ty : Nat) (dt : ℚ) : ℚ :=
  bufferVal x0 sm nx ny Bx By bi bj (sharedPos Bx tx ty)
    + dt * (-4 * bufferVal x0 sm nx ny Bx By bi bj (sharedPos Bx tx ty)
      + bufferVal x0 sm nx ny Bx By bi bj (sharedPos Bx tx ty - sharedWidth Bx)
      + bufferVal x0 sm nx ny Bx By bi bj (sharedPos Bx tx ty + sharedWidth Bx)
      + bufferVal x0 sm nx ny Bx By bi bj (sharedPos Bx tx ty - 1)
      + bufferVal x0 sm nx ny Bx By bi bj (sharedPos Bx tx ty + 1))

/-- Destination buffer contents after the launch
`diffusion_shared<<<grid_dim, block_dim, shared_size>>>(x0, x1, nx, ny, dt)`.
The in-guard thread writing position `p` lives in block
`(i / Bx, j / By)` at local coordinates `(i % Bx, j % By)`; `sm bi bj` is the
unspecified initial contents of block `(bi, bj)`'s shared buffer. -/
def diffusion_shared_launch (x0 x1 : Grid) (sm : Nat → Nat → Nat → ℚ)
    (nx ny Bx By : Nat) (dt : ℚ) : Grid :=
  fun p =>
    match decodeThread nx ny p with
    | some (i, j) =>
      diffusion_shared_compute x0 (sm (i / Bx) (j / By)) nx ny Bx By
        (i / Bx) (j / By) (i % Bx) (j % By) dt
    | none => x1 p

/-- One thread of the `fill` kernel (source lines 150-158): inside the guard
`tid < n` it writes `v[tid] = value`; beyond `n` it is a no-op. -/
def fill (value : ℚ) (n tid : Nat) : Option (Nat × ℚ) :=
  if tid < n then some (tid, value) else none

/-- Buffer contents after `fill_gpu(v + off, value, n)` (source lines 160-166):
the call passes a pointer `off` elements into the buffer `v`, launches at
least `n` threads, and thread `tid` writes `v[off + tid]` when `tid < n`. -/
def fill_gpu (v : Grid) (off : Nat) (value : ℚ) (n : Nat) : Grid :=
  fun p =>
    if off ≤ p then
      match fill value n (p - off) with
      | some w => w.2
      | none => v p
    else v p

/-- Buffer contents after initialization (main lines 99-107) on a padded
`X × Y` grid (`X = nx`, `Y = ny` in `main`'s padded naming): starting from the
unspecified contents `g` of freshly allocated device memory, fill all `X*Y`
cells with 0, then the first row (`X` cells at offset 0) with 1, then the last
row (`X` cells at offset `X*(Y-1)`) with 1. -/
def initGrid (g : Grid) (X Y : Nat) : Grid :=
  fill_gpu (fill_gpu (fill_gpu g 0 0 (X * Y)) 0 1 X) (X * (Y - 1)) 1 X

/-- The time-stepping loop of `main` (lines 120-132) with the naive kernel:
each step launches `diffusion(x0, x1, ...)` then swaps the two buffers, so
state `(x0, x1)` becomes `(diffusion_launch x0 x1 .., x0)`.  `nx`, `ny` are
the interior sizes passed to the kernels (`nx-2`, `ny-2` of the padded ones). -/
def run_naive (nx ny : Nat) (dt : ℚ) : Nat → Grid × Grid → Grid × Grid
  | 0, s => s
  | n + 1, s => run_naive nx ny dt n (diffusion_launch s.1 s.2 nx ny dt, s.1)

/-- The time-stepping loop of `main` with the shared-memory kernel:
`sm k bi bj` is the unspecified initial shared-buffer contents of block
`(bi, bj)` at the step taken when `k+1` steps remain. -/
def run_shared (sm : Nat → Nat → Nat → Nat → ℚ) (nx ny Bx By : Nat) (dt : ℚ) :
    Nat → Grid × Grid → Grid × Grid
  | 0, s => s
  | n + 1, s =>
    run_shared sm nx ny Bx By dt n
      (diffusion_shared_launch s.1 s.2 (sm n) nx ny Bx By dt, s.1)

/-- Number of blocks launched along a dimension of interior size `n` with
block size `B` (main lines 114-117): `(n + B - 1) / B`. -/
def gridDim (n B : Nat) : Nat := (n + B - 1) / B

/-- Whether thread `(tx, ty)` of block `(bi, bj)` executes the
`__syncthreads()` barrier at source line 65: the barrier sits inside the
`i<nx && j<ny` guard, so only in-guard threads reach it. -/
def reachesBarrier (nx ny Bx By bi bj tx ty : Nat) : Bool :=
  decide (tx + bi * Bx < nx) && decide (ty + bj * By < ny)

/-- Shared-buffer indices read by the compute phase of in-guard thread
`(tx, ty)`: its own cell and the four axis-aligned neighbours in the tile. -/
def computeReads (Bx tx ty : Nat) : List Nat :=
  [sharedPos Bx tx ty,
   sharedPos Bx tx ty - sharedWidth Bx,
   sharedPos Bx tx ty + sharedWidth Bx,
   sharedPos Bx tx ty - 1,
   sharedPos Bx tx ty + 1]

/-- Halo cells of the padded grid: padded row 0, padded row `ny+1`, padded
column 0, or padded column `nx+1`. -/
def isHalo (nx ny p : Nat) : Prop :=
  p / width nx = 0 ∨ p / width nx = ny + 1 ∨
  p % width nx = 0 ∨ p % width nx = nx + 1

theorem width_pos (nx : Nat) : 0 < width nx := by
  simp [width]

theorem pos_mod (nx i j : Nat) (hi : i < nx) :
    pos nx i j % width nx = i + 1 := by
  unfold pos
  rw [Nat.add_mul_mod_self_right, Nat.mod_eq_of_lt]
  simp [width]; omega

theorem pos_div (nx i j : Nat) (hi : i < nx) :
    pos nx i j / width nx = j + 1 := by
  unfold pos
  rw [Nat.add_mul_div_right _ _ (width_pos nx), Nat.div_eq_of_lt]
  · simp
  · simp [width]; omega

theorem decode_pos (nx ny i j : Nat) (hi : i < nx) (hj : j < ny) :
    decodeThread nx ny (pos nx i j) = some (i, j) := by
  unfold decodeThread
  rw [pos_mod nx i j hi, pos_div nx i j hi, if_pos]
  · simp
  · exact ⟨by omega, by omega, by omega, by omega⟩

theorem decode_some (nx ny p i j : Nat)
    (h : decodeThread nx ny p = some (i, j)) :
    i < nx ∧ j < ny ∧ p = pos nx i j := by
  unfold decodeThread at h
  split at h
  · next hc =>
    obtain ⟨h1, h2, h3, h4⟩ := hc
    obtain ⟨hi, hj⟩ : p % width nx - 1 = i ∧ p / width nx - 1 = j := by
      simpa using h
    have hdm := Nat.div_add_mod p (width nx)
    refine ⟨by omega, by omega, ?_⟩
    unfold pos
    subst hi hj
    have e1 : p % width nx - 1 + 1 = p % width nx := by omega
    have e2 : p / width nx - 1 + 1 = p / width nx := by omega
    rw [e1, e2, Nat.mul_comm]
    linarith
  · simp at h

theorem decode_none_of_not (nx ny p : Nat)
    (h : ¬(1 ≤ p % width nx ∧ p % width nx ≤ nx ∧
        1 ≤ p / width nx ∧ p / width nx ≤ ny)) :
    decodeThread nx ny p = none := by
  unfold decodeThread
  exact if_neg h

theorem decode_none_halo (nx ny p : Nat) (h : isHalo nx ny p) :
    decodeThread nx ny p = none := by
  refine decode_none_of_not nx ny p ?_
  have hm : p % width nx < width nx := Nat.mod_lt p (width_pos nx)
  rcases h with h | h | h | h <;> · intro hc; simp [width] at hm; omega

theorem decode_none_north (nx ny p : Nat) (h : p < width nx) :
    decodeThread nx ny p = none := by
  refine decode_none_halo nx ny p ?_
  exact Or.inl (Nat.div_eq_of_lt h)

theorem decode_none_south (nx ny p : Nat) (h : width nx * (ny + 1) ≤ p) :
    decodeThread nx ny p = none := by
  refine decode_none_of_not nx ny p ?_
  intro hc
  have : ny + 1 ≤ p / width nx := (Nat.le_div_iff_mul_le (width_pos nx)).2
    (by rw [Nat.mul_comm]; exact h)
  omega

theorem diffusion_launch_frame (x0 x1 : Grid) (nx ny : Nat) (dt : ℚ) (p : Nat)
    (h : decodeThread nx ny p = none) :
    diffusion_launch x0 x1 nx ny dt p = x1 p := by
  unfold diffusion_launch
  rw [h]

theorem diffusion_shared_launch_frame (x0 x1 : Grid)
    (sm : Nat → Nat → Nat → ℚ) (nx ny Bx By : Nat) (dt : ℚ) (p : Nat)
    (h : decodeThread nx ny p = none) :
    diffusion_shared_launch x0 x1 sm nx ny Bx By dt p = x1 p := by
  unfold diffusion_shared_launch
  rw [h]

theorem diffusion_launch_pos (x0 x1 : Grid) (nx ny : Nat) (dt : ℚ)
    (i j : Nat) (hi : i < nx) (hj : j < ny) :
    diffusion_launch x0 x1 nx ny dt (pos nx i j) =
      x0 (pos nx i j) + dt * (-4 * x0 (pos nx i j)
        + x0 (pos nx i j - width nx) + x0 (pos nx i j + width nx)
        + x0 (pos nx i j - 1) + x0 (pos nx i j + 1)) := by
  simp [diffusion_launch, decode_pos nx ny i j hi hj, diffusion, hi, hj]

theorem fill_gpu_eq (v : Grid) (off : Nat) (value : ℚ) (n p : Nat) :
    fill_gpu v off value n p =
      if off ≤ p ∧ p - off < n then value else v p := by
  unfold fill_gpu fill
  by_cases h1 : off ≤ p <;> by_cases h2 : p - off < n <;> simp [h1, h2]

theorem initGrid_north (g : Grid) (X Y p : Nat) (h : p < X) :
    initGrid g X Y p = 1 := by
  unfold initGrid
  rw [fill_gpu_eq, fill_gpu_eq]
  by_cases hc : X * (Y - 1) ≤ p ∧ p - X * (Y - 1) < X
  · rw [if_pos hc]
  · rw [if_neg hc, if_pos ⟨Nat.zero_le p, by omega⟩]

theorem initGrid_south (g : Grid) (X Y p : Nat) (h1 : X * (Y - 1) ≤ p)
    (h2 : p < X * Y) : initGrid g X Y p = 1 := by
  unfold initGrid
  rw [fill_gpu_eq]
  have hY : 1 ≤ Y := by
    by_contra hY
    have : Y = 0 := by omega
    subst this; simp at h2
  have hXY : X * (Y - 1) + X = X * Y := by
    have : Y - 1 + 1 = Y := by omega
    calc X * (Y - 1) + X = X * (Y - 1 + 1) := by ring
    _ = X * Y := by rw [this]
  rw [if_pos ⟨h1, by omega⟩]

theorem initGrid_mid (g : Grid) (X Y p : Nat) (h1 : X ≤ p)
    (h2 : p < X * (Y - 1)) : initGrid g X Y p = 0 := by
  unfold initGrid
  rw [fill_gpu_eq, fill_gpu_eq, fill_gpu_eq]
  have hle : X * (Y - 1) ≤ X * Y := Nat.mul_le_mul_left X (by omega)
  rw [if_neg (by omega), if_neg (by omega), if_pos ⟨Nat.zero_le p, by omega⟩]

theorem add_mul_mod (a b sw : Nat) (h : a < sw) : (a + b * sw) % sw = a := by
  rw [Nat.add_mul_mod_self_right, Nat.mod_eq_of_lt h]

theorem add_mul_div (a b sw : Nat) (h : a < sw) : (a + b * sw) / sw = b := by
  rw [Nat.add_mul_div_right _ _ (by omega : 0 < sw), Nat.div_eq_of_lt h]
  omega

/-- Global linear index whose value belongs in shared cell `q` of block
`(bi, bj)`: tile coordinates `(q % shared_width, q / shared_width)` sit at
global padded coordinates `(bi*Bx + q % shared_width, bj*By + q / shared_width)`. -/
def gmap (nx Bx By bi bj q : Nat) : Nat :=
  (bi * Bx + q % sharedWidth Bx) + (bj * By + q / sharedWidth Bx) * width nx

theorem mem_stageWrites (x0 : Grid) (nx ny Bx By bi bj tx ty : Nat)
    (e : Nat × ℚ) :
    e ∈ stageWrites x0 nx ny Bx By bi bj tx ty ↔
      (tx + bi * Bx < nx ∧ ty + bj * By < ny) ∧
      (e = (sharedPos Bx tx ty,
              x0 (pos nx (tx + bi * Bx) (ty + bj * By))) ∨
        (tx = 0 ∧ e = (sharedPos Bx tx ty - 1,
              x0 (pos nx (tx + bi * Bx) (ty + bj * By) - 1))) ∨
        (tx = Bx - 1 ∧ e = (sharedPos Bx tx ty + 1,
              x0 (pos nx (tx + bi * Bx) (ty + bj * By) + 1))) ∨
        (ty = 0 ∧ e = (sharedPos Bx tx ty - sharedWidth Bx,
              x0 (pos nx (tx + bi * Bx) (ty + bj * By) - width nx))) ∨
        (ty = By - 1 ∧ e = (sharedPos Bx tx ty + sharedWidth Bx,
              x0 (pos nx (tx + bi * Bx) (ty + bj * By) + width nx)))) := by
  unfold stageWrites
  split
  · next hg => split_ifs <;> simp_all
  · next hg => simp [hg]

theorem stageWrites_sound (x0 : Grid) (nx ny Bx By bi bj tx ty : Nat)
    (htx : tx < Bx) (e : Nat × ℚ)
    (he : e ∈ stageWrites x0 nx ny Bx By bi bj tx ty) :
    e.2 = x0 (gmap nx Bx By bi bj e.1) := by
  have hsw : tx + 1 < sharedWidth Bx := by simp [sharedWidth]; omega
  have htx2 : tx < sharedWidth Bx := by omega
  have htx3 : tx + 2 < sharedWidth Bx := by simp [sharedWidth]; omega
  rcases ((mem_stageWrites x0 nx ny Bx By bi bj tx ty e).1 he).2 with
    h | ⟨-, h⟩ | ⟨-, h⟩ | ⟨-, h⟩ | ⟨-, h⟩ <;> subst h
  · show _ = x0 (gmap nx Bx By bi bj (sharedPos Bx tx ty))
    unfold gmap sharedPos
    rw [add_mul_mod (tx + 1) (ty + 1) (sharedWidth Bx) hsw,
      add_mul_div (tx + 1) (ty + 1) (sharedWidth Bx) hsw]
    congr 1
    unfold pos width
    ring
  · show _ = x0 (gmap nx Bx By bi bj (sharedPos Bx tx ty - 1))
    have hv : pos nx (tx + bi * Bx) (ty + bj * By) - 1 =
        (tx + bi * Bx) + (ty + bj * By + 1) * width nx := by
      unfold pos; omega
    have hk : sharedPos Bx tx ty - 1 = tx + (ty + 1) * sharedWidth Bx := by
      unfold sharedPos; omega
    show x0 (pos nx (tx + bi * Bx) (ty + bj * By) - 1) = _
    rw [hv, hk]
    unfold gmap
    rw [add_mul_mod tx (ty + 1) (sharedWidth Bx) htx2,
      add_mul_div tx (ty + 1) (sharedWidth Bx) htx2]
    congr 1
    unfold width
    ring
  · show _ = x0 (gmap nx Bx By bi bj (sharedPos Bx tx ty + 1))
    have hk : sharedPos Bx tx ty + 1 = (tx + 2) + (ty + 1) * sharedWidth Bx := by
      unfold sharedPos; omega
    rw [hk]
    unfold gmap
    rw [add_mul_mod (tx + 2) (ty + 1) (sharedWidth Bx) htx3,
      add_mul_div (tx + 2) (ty + 1) (sharedWidth Bx) htx3]
    congr 1
    unfold pos width
    ring
  · show _ = x0 (gmap nx Bx By bi bj (sharedPos Bx tx ty - sharedWidth Bx))
    have hv : pos nx (tx + bi * Bx) (ty + bj * By) - width nx =
        (tx + bi * Bx + 1) + (ty + bj * By) * width nx := by
      unfold pos
      have : (ty + bj * By + 1) * width nx =
          (ty + bj * By) * width nx + width nx := by ring
      omega
    have hk : sharedPos Bx tx ty - sharedWidth Bx =
        (tx + 1) + ty * sharedWidth Bx := by
      unfold sharedPos
      have : (ty + 1) * sharedWidth Bx = ty * sharedWidth Bx + sharedWidth Bx := by
        ring
      omega
    show x0 (pos nx (tx + bi * Bx) (ty + bj * By) - width nx) = _
    rw [hv, hk]
    unfold gmap
    rw [add_mul_mod (tx + 1) ty (sharedWidth Bx) hsw,
      add_mul_div (tx + 1) ty (sharedWidth Bx) hsw]
    congr 1
    unfold width
    ring
  · show _ = x0 (gmap nx Bx By bi bj (sharedPos Bx tx ty + sharedWidth Bx))
    have hk : sharedPos Bx tx ty + sharedWidth Bx =
        (tx + 1) + (ty + 2) * sharedWidth Bx := by
      unfold sharedPos
      have : (ty + 2) * sharedWidth Bx =
          (ty + 1) * sharedWidth Bx + sharedWidth Bx := by ring
      omega
    rw [hk]
    unfold gmap
    rw [add_mul_mod (tx + 1) (ty + 2) (sharedWidth Bx) hsw,
      add_mul_div (tx + 1) (ty + 2) (sharedWidth Bx) hsw]
    congr 1
    unfold pos width
    ring

theorem blockWrites_sound (x0 : Grid) (nx ny Bx By bi bj : Nat) (e : Nat × ℚ)
    (he : e ∈ blockWrites x0 nx ny Bx By bi bj) :
    e.2 = x0 (gmap nx Bx By bi bj e.1) := by
  unfold blockWrites at he
  obtain ⟨tx, htx, he⟩ := List.mem_flatMap.1 he
  obtain ⟨ty, _, he⟩ := List.mem_flatMap.1 he
  exact stageWrites_sound x0 nx ny Bx By bi bj tx ty
    (List.mem_range.1 htx) e he

theorem staged_eq_of_mem (x0 : Grid) (nx ny Bx By bi bj q : Nat)
    (hmem : ∃ v, (q, v) ∈ blockWrites x0 nx ny Bx By bi bj) :
    staged x0 nx ny Bx By bi bj q = some (x0 (gmap nx Bx By bi bj q)) := by
  obtain ⟨v, hv⟩ := hmem
  unfold staged
  have hs : ((blockWrites x0 nx ny Bx By bi bj).find?
      fun e => e.1 == q).isSome := by
    exact List.find?_isSome.2 ⟨(q, v), hv, by simp⟩
  obtain ⟨e, he⟩ := Option.isSome_iff_exists.1 hs
  have h1 : e.1 = q := by
    have := List.find?_some he
    simpa using this
  have h2 := blockWrites_sound x0 nx ny Bx By bi bj e
    (List.mem_of_find?_eq_some he)
  rw [he]
  simp [h2, h1]

theorem gmap_own (nx Bx By bi bj tx ty : Nat) (htx : tx < Bx) :
    gmap nx Bx By bi bj (sharedPos Bx tx ty) =
      pos nx (tx + bi * Bx) (ty + bj * By) := by
  have hsw : tx + 1 < sharedWidth Bx := by simp [sharedWidth]; omega
  unfold gmap sharedPos
  rw [add_mul_mod (tx + 1) (ty + 1) (sharedWidth Bx) hsw,
    add_mul_div (tx + 1) (ty + 1) (sharedWidth Bx) hsw]
  unfold pos width
  ring

theorem gmap_left (nx Bx By bi bj tx ty : Nat) (htx : tx < Bx) :
    gmap nx Bx By bi bj (sharedPos Bx tx ty - 1) =
      pos nx (tx + bi * Bx) (ty + bj * By) - 1 := by
  have htx2 : tx < sharedWidth Bx := by simp [sharedWidth]; omega
  have hk : sharedPos Bx tx ty - 1 = tx + (ty + 1) * sharedWidth Bx := by
    unfold sharedPos; omega
  have hv : pos nx (tx + bi * Bx) (ty + bj * By) - 1 =
      (tx + bi * Bx) + (ty + bj * By + 1) * width nx := by
    unfold pos; omega
  rw [hk, hv]
  unfold gmap
  rw [add_mul_mod tx (ty + 1) (sharedWidth Bx) htx2,
    add_mul_div tx (ty + 1) (sharedWidth Bx) htx2]
  unfold width
  ring

theorem gmap_right (nx Bx By bi bj tx ty : Nat) (htx : tx < Bx) :
    gmap nx Bx By bi bj (sharedPos Bx tx ty + 1) =
      pos nx (tx + bi * Bx) (ty + bj * By) + 1 := by
  have htx3 : tx + 2 < sharedWidth Bx := by simp [sharedWidth]; omega
  have hk : sharedPos Bx tx ty + 1 = (tx + 2) + (ty + 1) * sharedWidth Bx := by
    unfold sharedPos; omega
  rw [hk]
  unfold gmap
  rw [add_mul_mod (tx + 2) (ty + 1) (sharedWidth Bx) htx3,
    add_mul_div (tx + 2) (ty + 1) (sharedWidth Bx) htx3]
  unfold pos width
  ring

theorem gmap_up (nx Bx By bi bj tx ty : Nat) (htx : tx < Bx) :
    gmap nx Bx By bi bj (sharedPos Bx tx ty - sharedWidth Bx) =
      pos nx (tx + bi * Bx) (ty + bj * By) - width nx := by
  have hsw : tx + 1 < sharedWidth Bx := by simp [sharedWidth]; omega
  have hk : sharedPos Bx tx ty - sharedWidth Bx =
      (tx + 1) + ty * sharedWidth Bx := by
    unfold sharedPos
    have : (ty + 1) * sharedWidth Bx = ty * sharedWidth Bx + sharedWidth Bx := by
      ring
    omega
  have hv : pos nx (tx + bi * Bx) (ty + bj * By) - width nx =
      (tx + bi * Bx + 1) + (ty + bj * By) * width nx := by
    unfold pos
    have : (ty + bj * By + 1) * width nx =
        (ty + bj * By) * width nx + width nx := by ring
    omega
  rw [hk, hv]
  unfold gmap
  rw [add_mul_mod (tx + 1) ty (sharedWidth Bx) hsw,
    add_mul_div (tx + 1) ty (sharedWidth Bx) hsw]
  unfold width
  ring

theorem gmap_down (nx Bx By bi bj tx ty : Nat) (htx : tx < Bx) :
    gmap nx Bx By bi bj (sharedPos Bx tx ty + sharedWidth Bx) =
      pos nx (tx + bi * Bx) (ty + bj * By) + width nx := by
  have hsw : tx + 1 < sharedWidth Bx := by simp [sharedWidth]; omega
  have hk : sharedPos Bx tx ty + sharedWidth Bx =
      (tx + 1) + (ty + 2) * sharedWidth Bx := by
    unfold sharedPos
    have : (ty + 2) * sharedWidth Bx =
        (ty + 1) * sharedWidth Bx + sharedWidth Bx := by ring
    omega
  rw [hk]
  unfold gmap
  rw [add_mul_mod (tx + 1) (ty + 2) (sharedWidth Bx) hsw,
    add_mul_div (tx + 1) (ty + 2) (sharedWidth Bx) hsw]
  unfold pos width
  ring

theorem mem_blockWrites_of (x0 : Grid) (nx ny Bx By bi bj tx ty : Nat)
    (htx : tx < Bx) (hty : ty < By) (e : Nat × ℚ)
    (h : e ∈ stageWrites x0 nx ny Bx By bi bj tx ty) :
    e ∈ blockWrites x0 nx ny Bx By bi bj := by
  unfold blockWrites
  exact List.mem_flatMap.2 ⟨tx, List.mem_range.2 htx,
    List.mem_flatMap.2 ⟨ty, List.mem_range.2 hty, h⟩⟩

theorem reads_staged (x0 : Grid) (nx ny Bx By bi bj tx ty : Nat)
    (hfx : (bi + 1) * Bx ≤ nx) (hfy : (bj + 1) * By ≤ ny)
    (htx : tx < Bx) (hty : ty < By) :
    ∀ q ∈ computeReads Bx tx ty,
      ∃ v, (q, v) ∈ blockWrites x0 nx ny Bx By bi bj := by
  have hguard : ∀ a b, a < Bx → b < By →
      a + bi * Bx < nx ∧ b + bj * By < ny := by
    intro a b ha hb
    have h1 : (bi + 1) * Bx = bi * Bx + Bx := by ring
    have h2 : (bj + 1) * By = bj * By + By := by ring
    omega
  intro q hq
  simp only [computeReads, List.mem_cons, List.not_mem_nil, or_false] at hq
  rcases hq with h | h | h | h | h <;> subst h
  · exact ⟨_, mem_blockWrites_of x0 nx ny Bx By bi bj tx ty htx hty _
      ((mem_stageWrites x0 nx ny Bx By bi bj tx ty _).2
        ⟨hguard tx ty htx hty, Or.inl rfl⟩)⟩
  · by_cases h0 : ty = 0
    · subst h0
      exact ⟨_, mem_blockWrites_of x0 nx ny Bx By bi bj tx 0 htx hty _
        ((mem_stageWrites x0 nx ny Bx By bi bj tx 0 _).2
          ⟨hguard tx 0 htx hty, Or.inr (Or.inr (Or.inr (Or.inl ⟨rfl, rfl⟩)))⟩)⟩
    · have hk : sharedPos Bx tx ty - sharedWidth Bx = sharedPos Bx tx (ty - 1) := by
        unfold sharedPos
        have e1 : (ty + 1) * sharedWidth Bx =
            ty * sharedWidth Bx + sharedWidth Bx := by ring
        have e2 : (ty - 1 + 1) * sharedWidth Bx =
            ty * sharedWidth Bx + sharedWidth Bx - sharedWidth Bx := by
          have : ty - 1 + 1 = ty := by omega
          rw [this]; omega
        omega
      rw [hk]
      exact ⟨_, mem_blockWrites_of x0 nx ny Bx By bi bj tx (ty - 1) htx
        (by omega) _
        ((mem_stageWrites x0 nx ny Bx By bi bj tx (ty - 1) _).2
          ⟨hguard tx (ty - 1) htx (by omega), Or.inl rfl⟩)⟩
  · by_cases h0 : ty = By - 1
    · subst h0
      exact ⟨_, mem_blockWrites_of x0 nx ny Bx By bi bj tx (By - 1) htx hty _
        ((mem_stageWrites x0 nx ny Bx By bi bj tx (By - 1) _).2
          ⟨hguard tx (By - 1) htx hty,
            Or.inr (Or.inr (Or.inr (Or.inr ⟨rfl, rfl⟩)))⟩)⟩
    · have hk : sharedPos Bx tx ty + sharedWidth Bx = sharedPos Bx tx (ty + 1) := by
        unfold sharedPos
        have e1 : (ty + 1 + 1) * sharedWidth Bx =
            (ty + 1) * sharedWidth Bx + sharedWidth Bx := by ring
        omega
      rw [hk]
      exact ⟨_, mem_blockWrites_of x0 nx ny Bx By bi bj tx (ty + 1) htx
        (by omega) _
        ((mem_stageWrites x0 nx ny Bx By bi bj tx (ty + 1) _).2
          ⟨hguard tx (ty + 1) htx (by omega), Or.inl rfl⟩)⟩
  · by_cases h0 : tx = 0
    · subst h0
      exact ⟨_, mem_blockWrites_of x0 nx ny Bx By bi bj 0 ty htx hty _
        ((mem_stageWrites x0 nx ny Bx By bi bj 0 ty _).2
          ⟨hguard 0 ty htx hty, Or.inr (Or.inl ⟨rfl, rfl⟩)⟩)⟩
    · have hk : sharedPos Bx tx ty - 1 = sharedPos Bx (tx - 1) ty := by
        unfold sharedPos
        have : tx - 1 + 1 = tx := by omega
        rw [this]
        omega
      rw [hk]
      exact ⟨_, mem_blockWrites_of x0 nx ny Bx By bi bj (tx - 1) ty
        (by omega) hty _
        ((mem_stageWrites x0 nx ny Bx By bi bj (tx - 1) ty _).2
          ⟨hguard (tx - 1) ty (by omega) hty, Or.inl rfl⟩)⟩
  · by_cases h0 : tx = Bx - 1
    · subst h0
      exact ⟨_, mem_blockWrites_of x0 nx ny Bx By bi bj (Bx - 1) ty htx hty _
        ((mem_stageWrites x0 nx ny Bx By bi bj (Bx - 1) ty _).2
          ⟨hguard (Bx - 1) ty htx hty,
            Or.inr (Or.inr (Or.inl ⟨rfl, rfl⟩))⟩)⟩
    · have hk : sharedPos Bx tx ty + 1 = sharedPos Bx (tx + 1) ty := by
        unfold sharedPos
        omega
      rw [hk]
      exact ⟨_, mem_blockWrites_of x0 nx ny Bx By bi bj (tx + 1) ty
        (by omega) hty _
        ((mem_stageWrites x0 nx ny Bx By bi bj (tx + 1) ty _).2
          ⟨hguard (tx + 1) ty (by omega) hty, Or.inl rfl⟩)⟩

theorem bufferVal_read (x0 : Grid) (sm : Nat → ℚ)
    (nx ny Bx By bi bj tx ty q : Nat)
    (hfx : (bi + 1) * Bx ≤ nx) (hfy : (bj + 1) * By ≤ ny)
    (htx : tx < Bx) (hty : ty < By) (hq : q ∈ computeReads Bx tx ty) :
    bufferVal x0 sm nx ny Bx By bi bj q = x0 (gmap nx Bx By bi bj q) := by
  unfold bufferVal
  rw [staged_eq_of_mem x0 nx ny Bx By bi bj q
    (reads_staged x0 nx ny Bx By bi bj tx ty hfx hfy htx hty q hq)]
  rfl

theorem diffusion_shared_compute_eq (x0 : Grid) (sm : Nat → ℚ)
    (nx ny Bx By bi bj tx ty : Nat) (dt : ℚ)
    (hfx : (bi + 1) * Bx ≤ nx) (hfy : (bj + 1) * By ≤ ny)
    (htx : tx < Bx) (hty : ty < By) :
    diffusion_shared_compute x0 sm nx ny Bx By bi bj tx ty dt =
      x0 (pos nx (tx + bi * Bx) (ty + bj * By))
        + dt * (-4 * x0 (pos nx (tx + bi * Bx) (ty + bj * By))
          + x0 (pos nx (tx + bi * Bx) (ty + bj * By) - width nx)
          + x0 (pos nx (tx + bi * Bx) (ty + bj * By) + width nx)
          + x0 (pos nx (tx + bi * Bx) (ty + bj * By) - 1)
          + x0 (pos nx (tx + bi * Bx) (ty + bj * By) + 1)) := by
  unfold diffusion_shared_compute
  rw [bufferVal_read x0 sm nx ny Bx By bi bj tx ty _ hfx hfy htx hty
      (by simp [computeReads]),
    bufferVal_read x0 sm nx ny Bx By bi bj tx ty _ hfx hfy htx hty
      (by simp [computeReads]),
    bufferVal_read x0 sm nx ny Bx By bi bj tx ty _ hfx hfy htx hty
      (by simp [computeReads]),
    bufferVal_read x0 sm nx ny Bx By bi bj tx ty _ hfx hfy htx hty
      (by simp [computeReads]),
    bufferVal_read x0 sm nx ny Bx By bi bj tx ty _ hfx hfy htx hty
      (by simp [computeReads]),
    gmap_own nx Bx By bi bj tx ty htx, gmap_left nx Bx By bi bj tx ty htx,
    gmap_right nx Bx By bi bj tx ty htx, gmap_up nx Bx By bi bj tx ty htx,
    gmap_down nx Bx By bi bj tx ty htx]

theorem diffusion_shared_launch_some (x0 x1 : Grid)
    (sm : Nat → Nat → Nat → ℚ) (nx ny Bx By : Nat) (dt : ℚ) (p i j : Nat)
    (h : decodeThread nx ny p = some (i, j)) :
    diffusion_shared_launch x0 x1 sm nx ny Bx By dt p =
      diffusion_shared_compute x0 (sm (i / Bx) (j / By)) nx ny Bx By
        (i / Bx) (j / By) (i % Bx) (j % By) dt := by
  unfold diffusion_shared_launch
  rw [h]

theorem diffusion_shared_launch_eq (x0 x1 : Grid) (sm : Nat → Nat → Nat → ℚ)
    (nx ny Bx By : Nat) (dt : ℚ) (hBx : 0 < Bx) (hBy : 0 < By)
    (hdx : Bx ∣ nx) (hdy : By ∣ ny) :
    diffusion_shared_launch x0 x1 sm nx ny Bx By dt =
      diffusion_launch x0 x1 nx ny dt := by
  funext p
  cases hd : decodeThread nx ny p with
  | none =>
    rw [diffusion_shared_launch_frame x0 x1 sm nx ny Bx By dt p hd,
      diffusion_launch_frame x0 x1 nx ny dt p hd]
  | some ij =>
    obtain ⟨i, j⟩ := ij
    obtain ⟨hi, hj, hp⟩ := decode_some nx ny p i j hd
    have hfx : (i / Bx + 1) * Bx ≤ nx := by
      have h1 : i / Bx < nx / Bx := Nat.div_lt_div_of_lt_of_dvd hdx hi
      have h2 : (i / Bx + 1) * Bx ≤ (nx / Bx) * Bx :=
        Nat.mul_le_mul_right Bx (by omega)
      rwa [Nat.div_mul_cancel hdx] at h2
    have hfy : (j / By + 1) * By ≤ ny := by
      have h1 : j / By < ny / By := Nat.div_lt_div_of_lt_of_dvd hdy hj
      have h2 : (j / By + 1) * By ≤ (ny / By) * By :=
        Nat.mul_le_mul_right By (by omega)
      rwa [Nat.div_mul_cancel hdy] at h2
    have hcomp := diffusion_shared_compute_eq x0 (sm (i / Bx) (j / By))
      nx ny Bx By (i / Bx) (j / By) (i % Bx) (j % By) dt hfx hfy
      (Nat.mod_lt i hBx) (Nat.mod_lt j hBy)
    have hidx : i % Bx + i / Bx * Bx = i := Nat.mod_add_div' i Bx
    have hidy : j % By + j / By * By = j := Nat.mod_add_div' j By
    rw [hidx, hidy] at hcomp
    subst hp
    rw [diffusion_shared_launch_some x0 x1 sm nx ny Bx By dt _ i j hd,
      hcomp, diffusion_launch_pos x0 x1 nx ny dt i j hi hj]

theorem run_shared_eq_run_naive (sm : Nat → Nat → Nat → Nat → ℚ)
    (nx ny Bx By : Nat) (dt : ℚ) (hBx : 0 < Bx) (hBy : 0 < By)
    (hdx : Bx ∣ nx) (hdy : By ∣ ny) :
    ∀ (n : Nat) (s : Grid × Grid),
      run_shared sm nx ny Bx By dt n s = run_naive nx ny dt n s := by
  intro n
  induction n with
  | zero => intro s; rfl
  | succ k ih =>
    intro s
    show run_shared sm nx ny Bx By dt k _ = run_naive nx ny dt k _
    rw [ih, diffusion_shared_launch_eq s.1 s.2 (sm k) nx ny Bx By dt
      hBx hBy hdx hdy]

/-- North and south padded boundary rows of a grid hold exactly 1. -/
def northSouthOne (nx ny : Nat) (v : Grid) : Prop :=
  (∀ p, p < width nx → v p = 1) ∧
  (∀ p, width nx * (ny + 1) ≤ p → p < width nx * (ny + 2) → v p = 1)

theorem initGrid_northSouthOne (g : Grid) (nx ny : Nat) :
    northSouthOne nx ny (initGrid g (width nx) (ny + 2)) := by
  constructor
  · intro p hp
    exact initGrid_north g (width nx) (ny + 2) p hp
  · intro p h1 h2
    exact initGrid_south g (width nx) (ny + 2) p (by simpa using h1)
      (by simpa using h2)

theorem diffusion_launch_ns (x0 x1 : Grid) (nx ny : Nat) (dt : ℚ)
    (h1 : northSouthOne nx ny x1) :
    northSouthOne nx ny (diffusion_launch x0 x1 nx ny dt) := by
  constructor
  · intro p hp
    rw [diffusion_launch_frame x0 x1 nx ny dt p (decode_none_north nx ny p hp)]
    exact h1.1 p hp
  · intro p hp1 hp2
    rw [diffusion_launch_frame x0 x1 nx ny dt p (decode_none_south nx ny p hp1)]
    exact h1.2 p hp1 hp2

theorem diffusion_shared_launch_ns (x0 x1 : Grid) (sm : Nat → Nat → Nat → ℚ)
    (nx ny Bx By : Nat) (dt : ℚ) (h1 : northSouthOne nx ny x1) :
    northSouthOne nx ny (diffusion_shared_launch x0 x1 sm nx ny Bx By dt) := by
  constructor
  · intro p hp
    rw [diffusion_shared_launch_frame x0 x1 sm nx ny Bx By dt p
      (decode_none_north nx ny p hp)]
    exact h1.1 p hp
  · intro p hp1 hp2
    rw [diffusion_shared_launch_frame x0 x1 sm nx ny Bx By dt p
      (decode_none_south nx ny p hp1)]
    exact h1.2 p hp1 hp2

theorem run_naive_ns (nx ny : Nat) (dt : ℚ) :
    ∀ (n : Nat) (s : Grid × Grid), northSouthOne nx ny s.1 →
      northSouthOne nx ny s.2 →
      northSouthOne nx ny (run_naive nx ny dt n s).1 ∧
      northSouthOne nx ny (run_naive nx ny dt n s).2 := by
  intro n
  induction n with
  | zero => intro s h1 h2; exact ⟨h1, h2⟩
  | succ k ih =>
    intro s h1 h2
    exact ih (diffusion_launch s.1 s.2 nx ny dt, s.1)
      (diffusion_launch_ns s.1 s.2 nx ny dt h2) h1

theorem run_shared_ns (sm : Nat → Nat → Nat → Nat → ℚ) (nx ny Bx By : Nat)
    (dt : ℚ) :
    ∀ (n : Nat) (s : Grid × Grid), northSouthOne nx ny s.1 →
      northSouthOne nx ny s.2 →
      northSouthOne nx ny (run_shared sm nx ny Bx By dt n s).1 ∧
      northSouthOne nx ny (run_shared sm nx ny Bx By dt n s).2 := by
  intro n
  induction n with
  | zero => intro s h1 h2; exact ⟨h1, h2⟩
  | succ k ih =>
    intro s h1 h2
    exact ih (diffusion_shared_launch s.1 s.2 (sm k) nx ny Bx By dt, s.1)
      (diffusion_shared_launch_ns s.1 s.2 (sm k) nx ny Bx By dt h2) h1

/-- All cells of the allocated buffer (`p < width * (ny+2)`) lie in `[0, 1]`. -/
def inUnit (nx ny : Nat) (v : Grid) : Prop :=
  ∀ p, p < width nx * (ny + 2) → 0 ≤ v p ∧ v p ≤ 1

theorem pos_lower (nx i j : Nat) : width nx ≤ pos nx i j := by
  unfold pos
  have h1 : width nx ≤ (j + 1) * width nx :=
    Nat.le_mul_of_pos_left (width nx) (by omega)
  omega

theorem pos_upper (nx ny i j : Nat) (hi : i < nx) (hj : j < ny) :
    pos nx i j < width nx * (ny + 1) := by
  unfold pos
  have h2 : i + 1 < width nx := by unfold width; omega
  have h3 : (j + 1) * width nx ≤ ny * width nx :=
    Nat.mul_le_mul_right (width nx) (by omega)
  have h4 : width nx * (ny + 1) = ny * width nx + width nx := by ring
  omega

theorem pos_reads_lt (nx ny i j : Nat) (hi : i < nx) (hj : j < ny) :
    pos nx i j + width nx < width nx * (ny + 2) := by
  have h1 := pos_upper nx ny i j hi hj
  have h5 : width nx * (ny + 2) = width nx * (ny + 1) + width nx := by ring
  omega

theorem initGrid_inUnit (g : Grid) (nx ny : Nat) :
    inUnit nx ny (initGrid g (width nx) (ny + 2)) := by
  intro p hp
  by_cases h1 : p < width nx
  · rw [initGrid_north g (width nx) (ny + 2) p h1]; norm_num
  · by_cases h2 : width nx * (ny + 2 - 1) ≤ p
    · rw [initGrid_south g (width nx) (ny + 2) p h2 hp]; norm_num
    · rw [initGrid_mid g (width nx) (ny + 2) p (by omega) (by omega)]; norm_num

theorem diffusion_launch_inUnit (x0 x1 : Grid) (nx ny : Nat) (dt : ℚ)
    (hdt0 : 0 ≤ dt) (hdt1 : 4 * dt ≤ 1)
    (h0 : inUnit nx ny x0) (h1 : inUnit nx ny x1) :
    inUnit nx ny (diffusion_launch x0 x1 nx ny dt) := by
  intro p hp
  cases hd : decodeThread nx ny p with
  | none =>
    rw [diffusion_launch_frame x0 x1 nx ny dt p hd]
    exact h1 p hp
  | some ij =>
    obtain ⟨i, j⟩ := ij
    obtain ⟨hi, hj, hpp⟩ := decode_some nx ny p i j hd
    subst hpp
    rw [diffusion_launch_pos x0 x1 nx ny dt i j hi hj]
    have hlt := pos_reads_lt nx ny i j hi hj
    have hw := width_pos nx
    obtain ⟨a0, a1⟩ := h0 (pos nx i j) (by omega)
    obtain ⟨b0, b1⟩ := h0 (pos nx i j - width nx) (by omega)
    obtain ⟨c0, c1⟩ := h0 (pos nx i j + width nx) (by omega)
    obtain ⟨d0, d1⟩ := h0 (pos nx i j - 1) (by omega)
    obtain ⟨e0, e1⟩ := h0 (pos nx i j + 1) (by omega)
    have hq : (0:ℚ) ≤ 1 - 4 * dt := by linarith
    constructor
    · have t1 : 0 ≤ x0 (pos nx i j) * (1 - 4 * dt) := mul_nonneg a0 hq
      have t2 : 0 ≤ dt * x0 (pos nx i j - width nx) := mul_nonneg hdt0 b0
      have t3 : 0 ≤ dt * x0 (pos nx i j + width nx) := mul_nonneg hdt0 c0
      have t4 : 0 ≤ dt * x0 (pos nx i j - 1) := mul_nonneg hdt0 d0
      have t5 : 0 ≤ dt * x0 (pos nx i j + 1) := mul_nonneg hdt0 e0
      nlinarith [t1, t2, t3, t4, t5]
    · have t1 : x0 (pos nx i j) * (1 - 4 * dt) ≤ 1 * (1 - 4 * dt) :=
        mul_le_mul_of_nonneg_right a1 hq
      have t2 : dt * x0 (pos nx i j - width nx) ≤ dt * 1 :=
        mul_le_mul_of_nonneg_left b1 hdt0
      have t3 : dt * x0 (pos nx i j + width nx) ≤ dt * 1 :=
        mul_le_mul_of_nonneg_left c1 hdt0
      have t4 : dt * x0 (pos nx i j - 1) ≤ dt * 1 :=
        mul_le_mul_of_nonneg_left d1 hdt0
      have t5 : dt * x0 (pos nx i j + 1) ≤ dt * 1 :=
        mul_le_mul_of_nonneg_left e1 hdt0
      nlinarith [t1, t2, t3, t4, t5]

theorem run_naive_inUnit (nx ny : Nat) (dt : ℚ)
    (hdt0 : 0 ≤ dt) (hdt1 : 4 * dt ≤ 1) :
    ∀ (n : Nat) (s : Grid × Grid), inUnit nx ny s.1 → inUnit nx ny s.2 →
      inUnit nx ny (run_naive nx ny dt n s).1 ∧
      inUnit nx ny (run_naive nx ny dt n s).2 := by
  intro n
  induction n with
  | zero => intro s h1 h2; exact ⟨h1, h2⟩
  | succ k ih =>
    intro s h1 h2
    exact ih (diffusion_launch s.1 s.2 nx ny dt, s.1)
      (diffusion_launch_inUnit s.1 s.2 nx ny dt hdt0 hdt1 h1 h2) h1

theorem pos_add_width (nx i j : Nat) : pos nx i j + width nx = pos nx i (j + 1) := by
  unfold pos
  ring

theorem pos_add_one (nx i j : Nat) : pos nx i j + 1 = pos nx (i + 1) j := by
  unfold pos
  ring

theorem staged_isSome_of_mem (x0 : Grid) (nx ny Bx By bi bj q : Nat)
    (hmem : ∃ v, (q, v) ∈ blockWrites x0 nx ny Bx By bi bj) :
    (staged x0 nx ny Bx By bi bj q).isSome = true := by
  rw [staged_eq_of_mem x0 nx ny Bx By bi bj q hmem]
  rfl

theorem blockWrites_key_div_le (x0 : Grid) (nx ny Bx By bi : Nat)
    (hny : ny < By) (e : Nat × ℚ)
    (he : e ∈ blockWrites x0 nx ny Bx By bi 0) :
    e.1 / sharedWidth Bx ≤ ny := by
  unfold blockWrites at he
  obtain ⟨tx, htx, he⟩ := List.mem_flatMap.1 he
  obtain ⟨ty, hty, he⟩ := List.mem_flatMap.1 he
  have htx1 : tx < Bx := List.mem_range.1 htx
  have hty1 : ty < By := List.mem_range.1 hty
  have hsw : tx + 1 < sharedWidth Bx := by simp [sharedWidth]; omega
  have htx2 : tx < sharedWidth Bx := by omega
  have htx3 : tx + 2 < sharedWidth Bx := by simp [sharedWidth]; omega
  obtain ⟨⟨hg1, hg2⟩, hkey⟩ :=
    (mem_stageWrites x0 nx ny Bx By bi 0 tx ty e).1 he
  have hty2 : ty < ny := by omega
  rcases hkey with h | ⟨h0, h⟩ | ⟨h0, h⟩ | ⟨h0, h⟩ | ⟨h0, h⟩ <;> subst h
  · show sharedPos Bx tx ty / sharedWidth Bx ≤ ny
    unfold sharedPos
    rw [add_mul_div (tx + 1) (ty + 1) (sharedWidth Bx) hsw]
    omega
  · show (sharedPos Bx tx ty - 1) / sharedWidth Bx ≤ ny
    have hk : sharedPos Bx tx ty - 1 = tx + (ty + 1) * sharedWidth Bx := by
      unfold sharedPos; omega
    rw [hk, add_mul_div tx (ty + 1) (sharedWidth Bx) htx2]
    omega
  · show (sharedPos Bx tx ty + 1) / sharedWidth Bx ≤ ny
    have hk : sharedPos Bx tx ty + 1 = (tx + 2) + (ty + 1) * sharedWidth Bx := by
      unfold sharedPos; omega
    rw [hk, add_mul_div (tx + 2) (ty + 1) (sharedWidth Bx) htx3]
    omega
  · show (sharedPos Bx tx ty - sharedWidth Bx) / sharedWidth Bx ≤ ny
    have hk : sharedPos Bx tx ty - sharedWidth Bx =
        (tx + 1) + ty * sharedWidth Bx := by
      unfold sharedPos
      have : (ty + 1) * sharedWidth Bx =
          ty * sharedWidth Bx + sharedWidth Bx := by ring
      omega
    rw [hk, add_mul_div (tx + 1) ty (sharedWidth Bx) hsw]
    omega
  · omega

theorem staged_below_none (x0 : Grid) (nx ny Bx By bi tx : Nat)
    (hny0 : 1 ≤ ny) (hny : ny < By) (htx : tx < Bx) :
    staged x0 nx ny Bx By bi 0
      (sharedPos Bx tx (ny - 1) + sharedWidth Bx) = none := by
  have hsw : tx + 1 < sharedWidth Bx := by simp [sharedWidth]; omega
  have hq : sharedPos Bx tx (ny - 1) + sharedWidth Bx =
      (tx + 1) + (ny + 1) * sharedWidth Bx := by
    unfold sharedPos
    have e1 : (ny - 1 + 1) * sharedWidth Bx = ny * sharedWidth Bx := by
      have : ny - 1 + 1 = ny := by omega
      rw [this]
    have e2 : (ny + 1) * sharedWidth Bx =
        ny * sharedWidth Bx + sharedWidth Bx := by ring
    omega
  have hdiv : (sharedPos Bx tx (ny - 1) + sharedWidth Bx) / sharedWidth Bx =
      ny + 1 := by
    rw [hq, add_mul_div (tx + 1) (ny + 1) (sharedWidth Bx) hsw]
  unfold staged
  have hfind : (blockWrites x0 nx ny Bx By bi 0).find?
      (fun e => e.1 == sharedPos Bx tx (ny - 1) + sharedWidth Bx) = none := by
    rw [List.find?_eq_none]
    intro e he
    have hd := blockWrites_key_div_le x0 nx ny Bx By bi hny e he
    simp only [beq_iff_eq]
    intro hcontra
    rw [hcontra, hdiv] at hd
    omega
  rw [hfind]
  rfl

theorem gridDim_dvd (n B : Nat) (hB : 0 < B) (h : B ∣ n) :
    gridDim n B = n / B := by
  obtain ⟨k, hk⟩ := h
  subst hk
  unfold gridDim
  rcases Nat.eq_zero_or_pos k with hk0 | hk0
  · subst hk0
    rw [Nat.mul_zero, Nat.zero_div]
    simp only [Nat.zero_add]
    exact Nat.div_eq_of_lt (by omega)
  · have e1 : B * k + B - 1 = (B - 1) + k * B := by
      have : k * B = B * k := by ring
      omega
    rw [e1, add_mul_div (B - 1) k B (by omega)]
    rw [Nat.mul_div_cancel_left k hB]

theorem block_full_of_dvd (n B b : Nat) (hB : 0 < B) (h : B ∣ n)
    (hb : b < gridDim n B) : (b + 1) * B ≤ n := by
  rw [gridDim_dvd n B hB h] at hb
  have h2 : (b + 1) * B ≤ (n / B) * B := Nat.mul_le_mul_right B (by omega)
  rwa [Nat.div_mul_cancel h] at h2

/-- The initialized padded `130 × 3` grid of the smallest run
(`pow = 0`, interior `128 × 1`), starting from zeroed fresh memory. -/
def initSmall : Grid := initGrid (fun _ => 0) 130 3

theorem bufferVal_small_19 :
    bufferVal initSmall (fun _ => 42) 128 1 16 16 0 0 19 = 0 := by
  unfold bufferVal
  rw [staged_eq_of_mem initSmall 128 1 16 16 0 0 19
    ⟨initSmall 131, mem_blockWrites_of initSmall 128 1 16 16 0 0 0 0
      (by norm_num) (by norm_num) (19, initSmall 131)
      ((mem_stageWrites initSmall 128 1 16 16 0 0 0 0 (19, initSmall 131)).2
        ⟨⟨by norm_num, by norm_num⟩, Or.inl rfl⟩)⟩]
  rfl

theorem bufferVal_small_1 :
    bufferVal initSmall (fun _ => 42) 128 1 16 16 0 0 1 = 1 := by
  unfold bufferVal
  rw [staged_eq_of_mem initSmall 128 1 16 16 0 0 1
    ⟨initSmall 1, mem_blockWrites_of initSmall 128 1 16 16 0 0 0 0
      (by norm_num) (by norm_num) (1, initSmall 1)
      ((mem_stageWrites initSmall 128 1 16 16 0 0 0 0 (1, initSmall 1)).2
        ⟨⟨by norm_num, by norm_num⟩,
          Or.inr (Or.inr (Or.inr (Or.inl ⟨rfl, rfl⟩)))⟩)⟩]
  rfl

theorem bufferVal_small_18 :
    bufferVal initSmall (fun _ => 42) 128 1 16 16 0 0 18 = 0 := by
  unfold bufferVal
  rw [staged_eq_of_mem initSmall 128 1 16 16 0 0 18
    ⟨initSmall 130, mem_blockWrites_of initSmall 128 1 16 16 0 0 0 0
      (by norm_num) (by norm_num) (18, initSmall 130)
      ((mem_stageWrites initSmall 128 1 16 16 0 0 0 0 (18, initSmall 130)).2
        ⟨⟨by norm_num, by norm_num⟩, Or.inr (Or.inl ⟨rfl, rfl⟩)⟩)⟩]
  rfl

theorem bufferVal_small_20 :
    bufferVal initSmall (fun _ => 42) 128 1 16 16 0 0 20 = 0 := by
  unfold bufferVal
  rw [staged_eq_of_mem initSmall 128 1 16 16 0 0 20
    ⟨initSmall 132, mem_blockWrites_of initSmall 128 1 16 16 0 0 1 0
      (by norm_num) (by norm_num) (20, initSmall 132)
      ((mem_stageWrites initSmall 128 1 16 16 0 0 1 0 (20, initSmall 132)).2
        ⟨⟨by norm_num, by norm_num⟩, Or.inl rfl⟩)⟩]
  rfl

theorem bufferVal_small_37 :
    bufferVal initSmall (fun _ => 42) 128 1 16 16 0 0 37 = 42 := by
  unfold bufferVal
  have h37 : staged initSmall 128 1 16 16 0 0 37 = none :=
    staged_below_none initSmall 128 1 16 16 0 0 (by norm_num) (by norm_num)
      (by norm_num)
  rw [h37]
  rfl

theorem shared_compute_small :
    diffusion_shared_compute initSmall (fun _ => 42) 128 1 16 16 0 0 0 0
      (1/10) = 43/10 := by
  have h : diffusion_shared_compute initSmall (fun _ => 42) 128 1 16 16 0 0 0 0
      (1/10) =
      bufferVal initSmall (fun _ => 42) 128 1 16 16 0 0 19
        + (1/10) * (-4 * bufferVal initSmall (fun _ => 42) 128 1 16 16 0 0 19
          + bufferVal initSmall (fun _ => 42) 128 1 16 16 0 0 1
          + bufferVal initSmall (fun _ => 42) 128 1 16 16 0 0 37
          + bufferVal initSmall (fun _ => 42) 128 1 16 16 0 0 18
          + bufferVal initSmall (fun _ => 42) 128 1 16 16 0 0 20) := rfl
  rw [h, bufferVal_small_19, bufferVal_small_1, bufferVal_small_37,
    bufferVal_small_18, bufferVal_small_20]
  norm_num

theorem run_shared_small :
    (run_shared (fun _ _ _ _ => 42) 128 1 16 16 (1/10) 1
      (initSmall, initSmall)).1 131 = 43/10 := by
  have h1 : (run_shared (fun _ _ _ _ => 42) 128 1 16 16 (1/10) 1
      (initSmall, initSmall)).1 131 =
      diffusion_shared_launch initSmall initSmall
        (fun _ _ _ => 42) 128 1 16 16 (1/10) 131 := rfl
  rw [h1, diffusion_shared_launch_some initSmall initSmall (fun _ _ _ => 42)
    128 1 16 16 (1/10) 131 0 0 rfl]
  exact shared_compute_small

theorem run_naive_small :
    (run_naive 128 1 (1/10) 1 (initSmall, initSmall)).1 131 = 1/5 := by
  have h1 : (run_naive 128 1 (1/10) 1 (initSmall, initSmall)).1 131 =
      diffusion_launch initSmall initSmall 128 1 (1/10) 131 := rfl
  have h2 : diffusion_launch initSmall initSmall 128 1 (1/10) 131 =
      initSmall 131 + (1/10) * (-4 * initSmall 131 + initSmall 1
        + initSmall 261 + initSmall 130 + initSmall 132) :=
    diffusion_launch_pos initSmall initSmall 128 1 (1/10) 0 0
      (by norm_num) (by norm_num)
  rw [h1, h2, show initSmall 131 = 0 from rfl, show initSmall 1 = 1 from rfl,
    show initSmall 261 = 1 from rfl, show initSmall 130 = 0 from rfl,
    show initSmall 132 = 0 from rfl]
  norm_num

/-- Claim C1 fails as stated: for the valid run parameters `ny = 2^0 = 1`,
`nsteps = 1`, `dt = 0.1`, identical initial and boundary conditions, the tiled
kernel and the naive kernel give different results at interior cell
`(0, 0)` (linear index 131).  The tiled kernel reads a staging-buffer cell no
thread staged (here holding the unspecified value 42), producing `43/10`
where the naive kernel produces `1/5`. -/
theorem claim_C1_counterexample :
    (run_shared (fun _ _ _ _ => 42) 128 1 16 16 (1/10) 1
      (initSmall, initSmall)).1 131 ≠
    (run_naive 128 1 (1/10) 1 (initSmall, initSmall)).1 131 := by
  rw [run_shared_small, run_naive_small]
  norm_num

/-- Claim C1 (amended): whenever the block dimensions divide the interior
dimensions (for the program, `Bx = By = 16`, `nx = 128` and `ny = 2^p` with
`p ≥ 4`), the tiled kernel run and the naive kernel run produce identical
buffers from any start state, for every `dt`, every number of steps, and
every unspecified initial staging-buffer contents. -/
theorem claim_C1 :
    ∀ (sm : Nat → Nat → Nat → Nat → ℚ) (nx ny Bx By : Nat) (dt : ℚ)
      (n : Nat) (s : Grid × Grid), 0 < Bx → 0 < By → Bx ∣ nx → By ∣ ny →
      run_shared sm nx ny Bx By dt n s = run_naive nx ny dt n s :=
  fun sm nx ny Bx By dt n s h1 h2 h3 h4 =>
    run_shared_eq_run_naive sm nx ny Bx By dt h1 h2 h3 h4 n s

/-- Witness for claim C1 at the program's parameters with `ny = 16`. -/
theorem claim_C1_witness :
    run_shared (fun _ _ _ _ => 42) 128 16 16 16 (1/10) 3
      (initSmall, initSmall) =
    run_naive 128 16 (1/10) 3 (initSmall, initSmall) :=
  claim_C1 (fun _ _ _ _ => 42) 128 16 16 16 (1/10) 3 (initSmall, initSmall)
    (by norm_num) (by norm_num) (by norm_num) (by norm_num)

/-- Claim C2: neither stencil kernel writes any halo cell (padded row 0, row
`ny+1`, column 0 or column `nx+1`): at such positions the destination keeps
its previous contents; consequently, for every `nsteps ≥ 0` and either
strategy, the north and south boundary rows of the output grid are exactly 1,
unchanged from initialization. -/
theorem claim_C2 :
    (∀ (x0 x1 : Grid) (sm : Nat → Nat → Nat → ℚ) (nx ny Bx By : Nat)
        (dt : ℚ) (p : Nat), isHalo nx ny p →
        diffusion_launch x0 x1 nx ny dt p = x1 p ∧
        diffusion_shared_launch x0 x1 sm nx ny Bx By dt p = x1 p) ∧
    (∀ (g g2 : Grid) (sm : Nat → Nat → Nat → Nat → ℚ) (nx ny Bx By : Nat)
        (dt : ℚ) (n p : Nat),
        (p < width nx ∨
          (width nx * (ny + 1) ≤ p ∧ p < width nx * (ny + 2))) →
        (run_naive nx ny dt n (initGrid g (width nx) (ny + 2),
          initGrid g2 (width nx) (ny + 2))).1 p = 1 ∧
        (run_shared sm nx ny Bx By dt n (initGrid g (width nx) (ny + 2),
          initGrid g2 (width nx) (ny + 2))).1 p = 1) := by
  constructor
  · intro x0 x1 sm nx ny Bx By dt p hp
    exact ⟨diffusion_launch_frame x0 x1 nx ny dt p
        (decode_none_halo nx ny p hp),
      diffusion_shared_launch_frame x0 x1 sm nx ny Bx By dt p
        (decode_none_halo nx ny p hp)⟩
  · intro g g2 sm nx ny Bx By dt n p hp
    have hi1 := initGrid_northSouthOne g nx ny
    have hi2 := initGrid_northSouthOne g2 nx ny
    have hN := (run_naive_ns nx ny dt n
      (initGrid g (width nx) (ny + 2), initGrid g2 (width nx) (ny + 2))
      hi1 hi2).1
    have hS := (run_shared_ns sm nx ny Bx By dt n
      (initGrid g (width nx) (ny + 2), initGrid g2 (width nx) (ny + 2))
      hi1 hi2).1
    rcases hp with hp | ⟨hp1, hp2⟩
    · exact ⟨hN.1 p hp, hS.1 p hp⟩
    · exact ⟨hN.2 p hp1 hp2, hS.2 p hp1 hp2⟩

/-- Witness for claim C2: a halo cell keeps its contents; a north-row cell of
a 5-step run is still 1. -/
theorem claim_C2_witness :
    (diffusion_launch initSmall initSmall 128 1 (1/10) 0 = initSmall 0 ∧
      diffusion_shared_launch initSmall initSmall (fun _ _ _ => 42)
        128 1 16 16 (1/10) 0 = initSmall 0) ∧
    (run_naive 128 1 (1/10) 5 (initGrid (fun _ => 0) (width 128) (1 + 2),
        initGrid (fun _ => 0) (width 128) (1 + 2))).1 3 = 1 :=
  ⟨claim_C2.1 initSmall initSmall (fun _ _ _ => 42) 128 1 16 16 (1/10) 0
      (Or.inl (by norm_num [width])),
    (claim_C2.2 (fun _ => 0) (fun _ => 0) (fun _ _ _ _ => 42) 128 1 16 16
      (1/10) 5 3 (Or.inl (by norm_num [width]))).1⟩

/-- Claim C3: for every interior coordinate `(i, j)` with `i < nx`, `j < ny`,
the naive kernel thread writes exactly
`dst[pos] = src[pos] + dt*(-4*src[pos] + src[pos-width] + src[pos+width] +
src[pos-1] + src[pos+1])` at `pos = (i+1) + (j+1)*width`, `width = nx+2`
(and the launch stores that value there); coordinates outside
`[0,nx) × [0,ny)` perform no work. -/
theorem claim_C3 :
    ∀ (x0 x1 : Grid) (nx ny : Nat) (dt : ℚ) (i j : Nat),
      (i < nx → j < ny →
        diffusion x0 nx ny dt i j = some (pos nx i j,
          x0 (pos nx i j) + dt * (-4 * x0 (pos nx i j)
            + x0 (pos nx i j - width nx) + x0 (pos nx i j + width nx)
            + x0 (pos nx i j - 1) + x0 (pos nx i j + 1))) ∧
        diffusion_launch x0 x1 nx ny dt (pos nx i j) =
          x0 (pos nx i j) + dt * (-4 * x0 (pos nx i j)
            + x0 (pos nx i j - width nx) + x0 (pos nx i j + width nx)
            + x0 (pos nx i j - 1) + x0 (pos nx i j + 1))) ∧
      (¬(i < nx ∧ j < ny) → diffusion x0 nx ny dt i j = none) := by
  intro x0 x1 nx ny dt i j
  constructor
  · intro hi hj
    constructor
    · unfold diffusion
      rw [if_pos ⟨hi, hj⟩]
    · exact diffusion_launch_pos x0 x1 nx ny dt i j hi hj
  · intro h
    unfold diffusion
    rw [if_neg h]

/-- Witness for claim C3 at thread `(0, 0)` (in guard) and thread `(200, 0)`
(out of guard) of the `128 × 1` configuration. -/
theorem claim_C3_witness :
    diffusion initSmall 128 1 (1/10) 0 0 = some (pos 128 0 0,
      initSmall (pos 128 0 0) + (1/10) * (-4 * initSmall (pos 128 0 0)
        + initSmall (pos 128 0 0 - width 128)
        + initSmall (pos 128 0 0 + width 128)
        + initSmall (pos 128 0 0 - 1) + initSmall (pos 128 0 0 + 1))) ∧
    diffusion initSmall 128 1 (1/10) 200 0 = none :=
  ⟨((claim_C3 initSmall initSmall 128 1 (1/10) 0 0).1 (by norm_num)
      (by norm_num)).1,
    (claim_C3 initSmall initSmall 128 1 (1/10) 200 0).2 (by norm_num)⟩

/-- Claim C5 fails as stated for the tiled strategy: with the stable
`dt = 0.1` and valid run parameters `ny = 2^0 = 1`, one tiled step from the
initialized grid leaves the interior cell at index 131 at `43/10 > 1` when
the unstaged staging-buffer cell it reads happens to hold 42. -/
theorem claim_C5_counterexample :
    ¬ ((run_shared (fun _ _ _ _ => 42) 128 1 16 16 (1/10) 1
      (initSmall, initSmall)).1 131 ≤ 1) := by
  rw [run_shared_small]
  norm_num

/-- Claim C5 (amended): for a stable time step (`0 ≤ dt`, `4*dt ≤ 1`, which
holds for the program's `dt = 0.1`), every cell of the allocated buffer stays
in `[0, 1]` at every step, starting from interior 0 and boundary rows 1 — for
the naive strategy at all run parameters, and for the tiled strategy whenever
the block dimensions divide the interior dimensions (`p ≥ 4` in the program). -/
theorem claim_C5 :
    ∀ (g g2 : Grid) (nx ny : Nat) (dt : ℚ) (n p : Nat),
      0 ≤ dt → 4 * dt ≤ 1 → p < width nx * (ny + 2) →
      (0 ≤ (run_naive nx ny dt n (initGrid g (width nx) (ny + 2),
          initGrid g2 (width nx) (ny + 2))).1 p ∧
        (run_naive nx ny dt n (initGrid g (width nx) (ny + 2),
          initGrid g2 (width nx) (ny + 2))).1 p ≤ 1) ∧
      (∀ (sm : Nat → Nat → Nat → Nat → ℚ) (Bx By : Nat),
        0 < Bx → 0 < By → Bx ∣ nx → By ∣ ny →
        0 ≤ (run_shared sm nx ny Bx By dt n (initGrid g (width nx) (ny + 2),
          initGrid g2 (width nx) (ny + 2))).1 p ∧
        (run_shared sm nx ny Bx By dt n (initGrid g (width nx) (ny + 2),
          initGrid g2 (width nx) (ny + 2))).1 p ≤ 1) := by
  intro g g2 nx ny dt n p hdt0 hdt1 hp
  have h := (run_naive_inUnit nx ny dt hdt0 hdt1 n
    (initGrid g (width nx) (ny + 2), initGrid g2 (width nx) (ny + 2))
    (initGrid_inUnit g nx ny) (initGrid_inUnit g2 nx ny)).1 p hp
  refine ⟨h, ?_⟩
  intro sm Bx By h1 h2 h3 h4
  rw [run_shared_eq_run_naive sm nx ny Bx By dt h1 h2 h3 h4 n
    (initGrid g (width nx) (ny + 2), initGrid g2 (width nx) (ny + 2))]
  exact h

/-- Witness for claim C5 at `ny = 16`, one step, interior cell 131. -/
theorem claim_C5_witness :
    (0 ≤ (run_naive 128 16 (1/10) 1 (initGrid (fun _ => 0) (width 128)
        (16 + 2), initGrid (fun _ => 0) (width 128) (16 + 2))).1 131 ∧
      (run_naive 128 16 (1/10) 1 (initGrid (fun _ => 0) (width 128) (16 + 2),
        initGrid (fun _ => 0) (width 128) (16 + 2))).1 131 ≤ 1) ∧
    (0 ≤ (run_shared (fun _ _ _ _ => 42) 128 16 16 16 (1/10) 1
        (initGrid (fun _ => 0) (width 128) (16 + 2),
          initGrid (fun _ => 0) (width 128) (16 + 2))).1 131 ∧
      (run_shared (fun _ _ _ _ => 42) 128 16 16 16 (1/10) 1
        (initGrid (fun _ => 0) (width 128) (16 + 2),
          initGrid (fun _ => 0) (width 128) (16 + 2))).1 131 ≤ 1) :=
  ⟨(claim_C5 (fun _ => 0) (fun _ => 0) 128 16 (1/10) 1 131 (by norm_num)
      (by norm_num) (by norm_num [width])).1,
    (claim_C5 (fun _ => 0) (fun _ => 0) 128 16 (1/10) 1 131 (by norm_num)
      (by norm_num) (by norm_num [width])).2 (fun _ _ _ _ => 42) 16 16
      (by norm_num) (by norm_num) (by norm_num) (by norm_num)⟩

theorem initGrid_pos_zero (g : Grid) (nx ny i j : Nat) (hi : i < nx)
    (hj : j < ny) : initGrid g (width nx) (ny + 2) (pos nx i j) = 0 :=
  initGrid_mid g (width nx) (ny + 2) (pos nx i j) (pos_lower nx i j)
    (pos_upper nx ny i j hi hj)

theorem initGrid_zero_between (g : Grid) (nx ny q : Nat)
    (h1 : width nx ≤ q) (h2 : q < width nx * (ny + 1)) :
    initGrid g (width nx) (ny + 2) q = 0 :=
  initGrid_mid g (width nx) (ny + 2) q h1 h2

/-- Claim C6: one naive step from the initialized grid (boundary rows 1,
interior 0, `dt = 0.1`): every interior cell of row 0 (adjacent to the top
boundary) becomes `0 + 0.1*(-4*0 + 1 + 0 + 0 + 0) = 0.1`, and every interior
cell with no boundary neighbour (rows 1 .. ny-2) stays exactly 0.  (The grid
needs at least two interior rows, as in the spec's `ny = 4` scenario, so that
a row-0 cell's south neighbour is an interior 0 cell.) -/
theorem claim_C6 :
    ∀ (g g2 : Grid) (nx ny : Nat), 2 ≤ ny →
      (∀ i, i < nx →
        (run_naive nx ny (1/10) 1 (initGrid g (width nx) (ny + 2),
          initGrid g2 (width nx) (ny + 2))).1 (pos nx i 0) = 1/10) ∧
      (∀ i j, i < nx → 1 ≤ j → j + 2 ≤ ny →
        (run_naive nx ny (1/10) 1 (initGrid g (width nx) (ny + 2),
          initGrid g2 (width nx) (ny + 2))).1 (pos nx i j) = 0) := by
  intro g g2 nx ny hny
  have hw : 0 < width nx := width_pos nx
  have hrun : (run_naive nx ny (1/10) 1 (initGrid g (width nx) (ny + 2),
      initGrid g2 (width nx) (ny + 2))).1 =
      diffusion_launch (initGrid g (width nx) (ny + 2))
        (initGrid g2 (width nx) (ny + 2)) nx ny (1/10) := rfl
  rw [hrun]
  constructor
  · intro i hi
    rw [diffusion_launch_pos _ _ nx ny (1/10) i 0 hi (by omega)]
    have hup : pos nx i 0 - width nx = i + 1 := by
      unfold pos; omega
    have hdown : pos nx i 0 + width nx = pos nx i 1 := pos_add_width nx i 0
    have hleft : pos nx i 0 - 1 = i + width nx := by
      unfold pos; omega
    have hright : pos nx i 0 + 1 = (i + 2) + width nx := by
      unfold pos; omega
    have hwnx : i + 2 ≤ width nx := by unfold width; omega
    have h2w : width nx * 3 ≤ width nx * (ny + 1) :=
      Nat.mul_le_mul_left (width nx) (by omega)
    have h2w2 : width nx * 3 = width nx + width nx + width nx := by ring
    rw [hup, hdown, hleft, hright,
      initGrid_pos_zero g nx ny i 0 hi (by omega),
      initGrid_north g (width nx) (ny + 2) (i + 1) (by unfold width; omega),
      initGrid_pos_zero g nx ny i 1 hi (by omega),
      initGrid_zero_between g nx ny (i + width nx) (by omega) (by omega),
      initGrid_zero_between g nx ny ((i + 2) + width nx) (by omega)
        (by omega)]
    norm_num
  · intro i j hi hj1 hj2
    rw [diffusion_launch_pos _ _ nx ny (1/10) i j hi (by omega)]
    have hup : pos nx i j - width nx = pos nx i (j - 1) := by
      unfold pos
      have e1 : j - 1 + 1 = j := by omega
      rw [e1]
      have e2 : (j + 1) * width nx = j * width nx + width nx := by ring
      omega
    have hdown : pos nx i j + width nx = pos nx i (j + 1) :=
    pos_add_width nx i j
    have hleft : pos nx i j - 1 = i + (j + 1) * width nx := by
      unfold pos; omega
    have hright : pos nx i j + 1 = (i + 2) + (j + 1) * width nx := by
      unfold pos; omega
    have hjw : (j + 1) * width nx + width nx ≤ ny * width nx := by
      have h5 : (j + 1 + 1) * width nx ≤ ny * width nx :=
        Nat.mul_le_mul_right (width nx) (by omega)
      have h6 : (j + 1 + 1) * width nx = (j + 1) * width nx + width nx := by
        ring
      omega
    have hjw2 : width nx ≤ (j + 1) * width nx :=
      Nat.le_mul_of_pos_left (width nx) (by omega)
    have hjw3 : width nx * (ny + 1) = ny * width nx + width nx := by ring
    have hwnx : i + 2 ≤ width nx := by unfold width; omega
    rw [hup, hdown, hleft, hright,
      initGrid_pos_zero g nx ny i j hi (by omega),
      initGrid_pos_zero g nx ny i (j - 1) hi (by omega),
      initGrid_pos_zero g nx ny i (j + 1) hi (by omega),
      initGrid_zero_between g nx ny (i + (j + 1) * width nx) (by omega)
        (by omega),
      initGrid_zero_between g nx ny ((i + 2) + (j + 1) * width nx) (by omega)
        (by omega)]
    norm_num

/-- Witness for claim C6 at the spec's scenario `nx = 4`, `ny = 4`. -/
theorem claim_C6_witness :
    (run_naive 4 4 (1/10) 1 (initGrid (fun _ => 0) (width 4) (4 + 2),
      initGrid (fun _ => 0) (width 4) (4 + 2))).1 (pos 4 2 0) = 1/10 ∧
    (run_naive 4 4 (1/10) 1 (initGrid (fun _ => 0) (width 4) (4 + 2),
      initGrid (fun _ => 0) (width 4) (4 + 2))).1 (pos 4 2 1) = 0 :=
  ⟨(claim_C6 (fun _ => 0) (fun _ => 0) 4 4 (by norm_num)).1 2 (by norm_num),
    (claim_C6 (fun _ => 0) (fun _ => 0) 4 4 (by norm_num)).2 2 1
      (by norm_num) (by norm_num) (by norm_num)⟩

/-- Claim C7: with `nsteps = 0` the run returns the initialized grids
unchanged, for either strategy; the initialized grid has 1 on the whole north
row and the whole south row, and 0 on every other allocated cell (interior
and east/west halo cells outside the top and bottom rows). -/
theorem claim_C7 :
    ∀ (g g2 : Grid) (sm : Nat → Nat → Nat → Nat → ℚ) (nx ny Bx By : Nat)
      (dt : ℚ),
      run_naive nx ny dt 0 (initGrid g (width nx) (ny + 2),
        initGrid g2 (width nx) (ny + 2)) =
        (initGrid g (width nx) (ny + 2), initGrid g2 (width nx) (ny + 2)) ∧
      run_shared sm nx ny Bx By dt 0 (initGrid g (width nx) (ny + 2),
        initGrid g2 (width nx) (ny + 2)) =
        (initGrid g (width nx) (ny + 2), initGrid g2 (width nx) (ny + 2)) ∧
      (∀ p, p < width nx → initGrid g (width nx) (ny + 2) p = 1) ∧
      (∀ p, width nx * (ny + 1) ≤ p → p < width nx * (ny + 2) →
        initGrid g (width nx) (ny + 2) p = 1) ∧
      (∀ p, width nx ≤ p → p < width nx * (ny + 1) →
        initGrid g (width nx) (ny + 2) p = 0) := by
  intro g g2 sm nx ny Bx By dt
  refine ⟨rfl, rfl, ?_, ?_, ?_⟩
  · intro p hp
    exact initGrid_north g (width nx) (ny + 2) p hp
  · intro p h1 h2
    exact initGrid_south g (width nx) (ny + 2) p h1 h2
  · intro p h1 h2
    exact initGrid_mid g (width nx) (ny + 2) p h1 h2

/-- Witness for claim C7 at `nx = 128`, `ny = 1`. -/
theorem claim_C7_witness :
    run_naive 128 1 (1/10) 0 (initGrid (fun _ => 0) (width 128) (1 + 2),
      initGrid (fun _ => 0) (width 128) (1 + 2)) =
      (initGrid (fun _ => 0) (width 128) (1 + 2),
        initGrid (fun _ => 0) (width 128) (1 + 2)) ∧
    initGrid (fun _ => 0) (width 128) (1 + 2) 5 = 1 ∧
    initGrid (fun _ => 0) (width 128) (1 + 2) 200 = 0 :=
  ⟨(claim_C7 (fun _ => 0) (fun _ => 0) (fun _ _ _ _ => 42) 128 1 16 16
      (1/10)).1,
    (claim_C7 (fun _ => 0) (fun _ => 0) (fun _ _ _ _ => 42) 128 1 16 16
      (1/10)).2.2.1 5 (by norm_num [width]),
    (claim_C7 (fun _ => 0) (fun _ => 0) (fun _ _ _ _ => 42) 128 1 16 16
      (1/10)).2.2.2.2 200 (by norm_num [width]) (by norm_num [width])⟩

/-- Claim C8: the fill operation on a buffer region starting `off` elements
into the buffer sets exactly the `n` elements of the region to the constant
and leaves every element outside the region unchanged; fill threads with
`tid ≥ n` are no-ops. -/
theorem claim_C8 :
    ∀ (v : Grid) (off : Nat) (value : ℚ) (n : Nat),
      (∀ t, t < n → fill_gpu v off value n (off + t) = value) ∧
      (∀ p, p < off ∨ off + n ≤ p → fill_gpu v off value n p = v p) ∧
      (∀ t, n ≤ t → fill value n t = none) := by
  intro v off value n
  refine ⟨?_, ?_, ?_⟩
  · intro t ht
    rw [fill_gpu_eq]
    rw [if_pos ⟨by omega, by omega⟩]
  · intro p hp
    rw [fill_gpu_eq]
    rw [if_neg (by omega)]
  · intro t ht
    unfold fill
    rw [if_neg (by omega)]

/-- Witness for claim C8 with a region of 4 cells at offset 3. -/
theorem claim_C8_witness :
    fill_gpu initSmall 3 (7/2) 4 (3 + 2) = 7/2 ∧
    fill_gpu initSmall 3 (7/2) 4 9 = initSmall 9 ∧
    fill (7/2 : ℚ) 4 11 = none :=
  ⟨(claim_C8 initSmall 3 (7/2) 4).1 2 (by norm_num),
    (claim_C8 initSmall 3 (7/2) 4).2.1 9 (Or.inr (by norm_num)),
    (claim_C8 initSmall 3 (7/2) 4).2.2 11 (by norm_num)⟩

/-- Claim C9 fails as stated: for the valid run parameters `ny = 2^0 = 1`,
block `(0, 0)` is launched and its unit `(0, 1)` is outside the kernel guard,
so it never reaches the barrier (which sits inside the guard), while unit
`(0, 0)` of the same block does reach it. -/
theorem claim_C9_counterexample :
    reachesBarrier 128 1 16 16 0 0 0 1 = false ∧
    reachesBarrier 128 1 16 16 0 0 0 0 = true ∧
    0 < gridDim 128 16 ∧ 0 < gridDim 1 16 ∧ 1 < 16 := by
  decide

/-- Claim C9 (amended): whenever `ny` is a multiple of the block height 16
(`p ≥ 4` in the program), every unit of every launched block is inside the
guard and therefore reaches the block-wide barrier, edge units included; only
then is the divergent-barrier undefined behaviour avoided. -/
theorem claim_C9 :
    ∀ (ny bi bj tx ty : Nat), 16 ∣ ny → bi < gridDim 128 16 →
      bj < gridDim ny 16 → tx < 16 → ty < 16 →
      reachesBarrier 128 ny 16 16 bi bj tx ty = true := by
  intro ny bi bj tx ty hdvd hbi hbj htx hty
  have h1 : (bi + 1) * 16 ≤ 128 :=
    block_full_of_dvd 128 16 bi (by norm_num) (by norm_num) hbi
  have h2 : (bj + 1) * 16 ≤ ny :=
    block_full_of_dvd ny 16 bj (by norm_num) hdvd hbj
  have e1 : (bi + 1) * 16 = bi * 16 + 16 := by ring
  have e2 : (bj + 1) * 16 = bj * 16 + 16 := by ring
  have hx : tx + bi * 16 < 128 := by omega
  have hy : ty + bj * 16 < ny := by omega
  unfold reachesBarrier
  simp [hx, hy]

/-- Witness for claim C9 at `ny = 16`, block `(0, 0)`, unit `(3, 5)`. -/
theorem claim_C9_witness : reachesBarrier 128 16 16 16 0 0 3 5 = true :=
  claim_C9 16 0 0 3 5 (by norm_num) (by decide) (by decide) (by decide)
    (by decide)

/-- Claim C10: when `16 ∣ ny` every launched block is full and every
staging-buffer cell read in the compute phase was written in the staging
phase of the same block; for `ny = 2^p` with `p < 4` the single launched
block row is partial, and the in-guard unit `(tx, ny-1)` on the last
in-domain row reads the staging-buffer cell below its own — one of its five
compute-phase reads — which no unit of the block has written. -/
theorem claim_C10 :
    (∀ (x0 : Grid) (ny bi bj tx ty : Nat), 16 ∣ ny → bi < gridDim 128 16 →
      bj < gridDim ny 16 → tx < 16 → ty < 16 →
      ∀ q ∈ computeReads 16 tx ty,
        (staged x0 128 ny 16 16 bi bj q).isSome = true) ∧
    (∀ (x0 : Grid) (p bi tx : Nat), p < 4 → tx < 16 →
      (sharedPos 16 tx (2 ^ p - 1) + sharedWidth 16 ∈
        computeReads 16 tx (2 ^ p - 1)) ∧
      staged x0 128 (2 ^ p) 16 16 bi 0
        (sharedPos 16 tx (2 ^ p - 1) + sharedWidth 16) = none) := by
  constructor
  · intro x0 ny bi bj tx ty hdvd hbi hbj htx hty q hq
    exact staged_isSome_of_mem x0 128 ny 16 16 bi bj q
      (reads_staged x0 128 ny 16 16 bi bj tx ty
        (block_full_of_dvd 128 16 bi (by norm_num) (by norm_num) hbi)
        (block_full_of_dvd ny 16 bj (by norm_num) hdvd hbj) htx hty q hq)
  · intro x0 p bi tx hp htx
    have h1 : 1 ≤ 2 ^ p := Nat.one_le_pow p 2 (by norm_num)
    have h2 : 2 ^ p < 16 := by interval_cases p <;> norm_num
    exact ⟨by simp [computeReads],
      staged_below_none x0 128 (2 ^ p) 16 16 bi tx h1 h2 htx⟩

/-- Witness for claim C10: a staged read in a full block, and the unstaged
read of the `ny = 1` partial block. -/
theorem claim_C10_witness :
    (staged (fun _ => 0) 128 16 16 16 0 0 (sharedPos 16 0 0)).isSome
      = true ∧
    staged (fun _ => 0) 128 (2 ^ 0) 16 16 0 0
      (sharedPos 16 0 (2 ^ 0 - 1) + sharedWidth 16) = none :=
  ⟨claim_C10.1 (fun _ => 0) 16 0 0 0 0 (by norm_num) (by decide) (by decide)
      (by decide) (by decide) (sharedPos 16 0 0) (by simp [computeReads]),
    (claim_C10.2 (fun _ => 0) 0 0 0 (by norm_num) (by norm_num)).2⟩

end Diffusion2D
